import Mathlib

/-!
Verification of the log-synchronization subsystem of `ecs-run-task`
(runner package: `logWaiter`, `logWatcher`, `logWriter`, and the
exit-code aggregation of `Runner.Run`).

The Go source is embedded shallowly: stateful loops become explicit
state passing, the remote CloudWatch Logs store is a parameter
supplying the responses each call would receive, durations and
timestamps are naturals/integers counting milliseconds.
-/

namespace EcsRunTask

/-- A record fetched from the store, as consumed by the watcher
(`cloudwatchlogs.FilteredLogEvent`: timestamp in ms since epoch, message). -/
structure FilteredLogEvent where
  timestamp : Int
  message : String
deriving DecidableEq

/-- An error value as returned by the Go AWS SDK: either an `awserr.Error`
carrying a code, or a plain error with only a message. -/
inductive GoError where
  | awsErr (code : String) (message : String)
  | plain (message : String)
deriving DecidableEq

/-- Embeds `isRateLimited`: true exactly when the error is an `awserr.Error`
whose `Code()` is `"Throttling"`. -/
def isRateLimited : Option GoError → Bool
  | some (GoError.awsErr code _) => code == "Throttling"
  | _ => false

/-- State of the Go channel `lw.stop` used as the watcher's stop signal. -/
inductive ChanState where
  | opened
  | closed
deriving DecidableEq

/-- Outcome of one `logWatcher.Stop` call. -/
inductive StopOutcome where
  | ok
  | errNotStarted
  | panicked
deriving DecidableEq

/-- Embeds `logWatcher.Stop` acting on the channel field `lw.stop`
(`none` = nil channel). A non-nil open channel is closed and nil is
reported as the "Log watcher not started" error; the channel field is
never reset, so closing a non-nil but already-closed channel is a Go
runtime panic (close of closed channel). -/
def Stop : Option ChanState → StopOutcome × Option ChanState
  | none => (StopOutcome.errNotStarted, none)
  | some ChanState.opened => (StopOutcome.ok, some ChanState.closed)
  | some ChanState.closed => (StopOutcome.panicked, some ChanState.closed)

/-- The value `logWatcher.Watch` stores into `lw.stop` before waiting:
a freshly made (open) channel. -/
def watchStartChan : Option ChanState := some ChanState.opened

/-- Result of one `printEventsAfter` poll iteration: the records handed to
the Printer in order, the watermark, the stop-channel state, the number of
`Stop` invocations made from inside the iteration, and whether the
iteration panicked (double channel close). -/
structure FetchResult where
  delivered : List FilteredLogEvent
  ts : Int
  stop : Option ChanState
  stops : Nat
  panicked : Bool
deriving DecidableEq

/-- Embeds the per-event loop inside `printEventsAfter`'s page callback:
for each event the Printer is invoked; on a `false` return `lw.Stop()` is
invoked (its error result discarded, its panic propagating); afterwards the
running watermark is raised to the event's timestamp when larger. -/
def printEventsLoop (printer : FilteredLogEvent → Bool) :
    List FilteredLogEvent → Int → Option ChanState → FetchResult
  | [], ts, st => ⟨[], ts, st, 0, false⟩
  | e :: rest, ts, st =>
    if printer e then
      let ts1 := if e.timestamp > ts then e.timestamp else ts
      let r := printEventsLoop printer rest ts1 st
      ⟨e :: r.delivered, r.ts, r.stop, r.stops, r.panicked⟩
    else
      match Stop st with
      | (StopOutcome.panicked, st1) => ⟨[e], ts, st1, 1, true⟩
      | (_, st1) =>
        let ts1 := if e.timestamp > ts then e.timestamp else ts
        let r := printEventsLoop printer rest ts1 st1
        ⟨e :: r.delivered, r.ts, r.stop, r.stops + 1, r.panicked⟩

/-- Embeds `logWatcher.printEventsAfter` over the pages the store returns
for one `FilterLogEventsPages` call (the page callback returns `!lastPage`,
so every supplied page is drained; the watermark is threaded across pages
and only returned after the whole fetch). -/
def printEventsAfter (printer : FilteredLogEvent → Bool) :
    List (List FilteredLogEvent) → Int → Option ChanState → FetchResult
  | [], ts, st => ⟨[], ts, st, 0, false⟩
  | pg :: pgs, ts, st =>
    let r := printEventsLoop printer pg ts st
    if r.panicked then r
    else
      let r2 := printEventsAfter printer pgs r.ts r.stop
      ⟨r.delivered ++ r2.delivered, r2.ts, r2.stop, r.stops + r2.stops, r2.panicked⟩

/-- The `StartTime` field of the `FilterLogEventsInput` that
`printEventsAfter` builds from the watermark: `aws.Int64(ts + 1)`. -/
def filterStartTime (ts : Int) : Int := ts + 1

/-- The store's fetch semantics for that input (`FilterLogEvents` with
`StartTime`, an inclusive lower bound on record timestamps): whether a
queued record is returned by the next fetch issued with the given
watermark. -/
def fetchDelivers (watermark : Int) (e : FilteredLogEvent) : Bool :=
  decide (filterStartTime watermark ≤ e.timestamp)

/-- Outcome of the tail loop of `logWatcher.Watch`. -/
inductive WatchOutcome where
  | ok
  | panicked
  | running
deriving DecidableEq

/-- Embeds the poll loop of `logWatcher.Watch` after the waiter succeeded.
Each element of `polls` is the sequence of pages the store would return
for one further fetch. Per iteration the select fires the stop case when
the stop channel is already closed (it is ready at once, the fresh
`time.After(pollInterval)` timer only after the positive poll interval),
returning nil; otherwise the tick fires and `printEventsAfter` runs on the
next poll. The second component counts the fetches issued. `running`
means the supplied schedule ended with the loop still polling. -/
def watchLoop (printer : FilteredLogEvent → Bool) :
    Option ChanState → Int → List (List (List FilteredLogEvent)) → WatchOutcome × Nat
  | some ChanState.closed, _, _ => (WatchOutcome.ok, 0)
  | _, _, [] => (WatchOutcome.running, 0)
  | st, ts, poll :: polls =>
    let r := printEventsAfter printer poll ts st
    if r.panicked then (WatchOutcome.panicked, 1)
    else
      let next := watchLoop printer r.stop r.ts polls
      (next.1, next.2 + 1)

/-- Embeds `after := time.Now().Unix() * 1000` at the top of
`logWatcher.Watch`, expressed in terms of the wall clock in milliseconds:
`Unix()` is the whole seconds since epoch, i.e. `nowMillis / 1000` for a
non-negative clock. -/
def watchInitialWatermark (nowMillis : Int) : Int := nowMillis / 1000 * 1000

/-- `defaultLogTimeout = time.Minute * 60`, in milliseconds. -/
def defaultLogTimeoutMs : Nat := 60 * 60 * 1000

/-- `defaultLogPollInterval = time.Second * 2`, in milliseconds. -/
def defaultLogPollIntervalMs : Nat := 2 * 1000

/-- The poll interval `logWaiter.Wait` actually uses: the configured one,
or the default when the configured duration is zero. -/
def effectiveInterval (interval : Nat) : Nat :=
  if interval = 0 then defaultLogPollIntervalMs else interval

/-- The timeout `logWaiter.Wait` actually uses: the configured one, or the
default when the configured duration is zero. -/
def effectiveTimeout (timeout : Nat) : Nat :=
  if timeout = 0 then defaultLogTimeoutMs else timeout

/-- The error message `logWaiter.Wait` returns on timeout
(`fmt.Errorf("Timed out waiting for stream %s", lw.LogStreamName)`). -/
def timedOutMessage (streamName : String) : String :=
  "Timed out waiting for stream " ++ streamName

/-- Wall-clock time at which `logWaiter.Wait` returns the timeout error
for a stream that never exists, with instantaneous, error-free existence
checks. `p` is the effective poll interval, `T` the effective timeout,
`s` the time at which the current round's select is entered (rounds are
entered at the ticker's tick times `0, p, 2p, ...`). The timeout
goroutine's send on `done` is receivable from time `T` on; the select
completes with whichever of the done send (at `max s T`) and the next
tick (at `s + p`) is ready first, and a tick that wins a tie at
`T = s + p` just reaches the next round, whose select finds `done`
already ready at that same instant. The first argument of the recursion
is fuel bounding the number of rounds. -/
def waitTimeoutAt (p T : Nat) : Nat → Nat → Option Nat
  | 0, _ => none
  | fuel + 1, s => if T ≤ s + p then some (max s T) else waitTimeoutAt p T fuel (s + p)

/-- What one round of `logWaiter.Wait`'s loop does with the result of
`streamExists()`. -/
inductive WaitStep where
  | retryAfterBackoff (backoffMs : Nat)
  | returnErr (e : GoError)
  | returnOk
  | poll
deriving DecidableEq

/-- The fixed rate-limit backoff inside `logWaiter.Wait`:
`time.Sleep(5 * time.Second)`, in milliseconds. -/
def rateLimitBackoffMs : Nat := 5 * 1000

/-- Embeds the error/result handling of one `logWaiter.Wait` round: a
rate-limited error sleeps the fixed backoff and retries, any other error
is returned at once, an existing stream returns nil, otherwise the round
falls through to the ticker select. -/
def waitHandleCheck (exists_ : Bool) (err : Option GoError) : WaitStep :=
  if isRateLimited err then WaitStep.retryAfterBackoff rateLimitBackoffMs
  else
    match err with
    | some e => WaitStep.returnErr e
    | none => if exists_ then WaitStep.returnOk else WaitStep.poll

/-- Terminal result of running `logWaiter.Wait` against a finite script of
`streamExists()` results (`pending` = script exhausted, still looping). -/
inductive WaitResult where
  | ok
  | err (e : GoError)
  | pending
deriving DecidableEq

/-- Runs the `logWaiter.Wait` loop over a script of `streamExists()`
results, one per round, ignoring the timeout clock. -/
def waitRun : List (Bool × Option GoError) → WaitResult
  | [] => WaitResult.pending
  | (exists_, err) :: rest =>
    match waitHandleCheck exists_ err with
    | WaitStep.retryAfterBackoff _ => waitRun rest
    | WaitStep.returnErr e => WaitResult.err e
    | WaitStep.returnOk => WaitResult.ok
    | WaitStep.poll => waitRun rest

/-- Embeds `fmt.Sprintf("Container %s exited with %d", containerID,
exitCode)` from `writeContainerFinishedMessage`. -/
def containerFinishedMessage (containerID : String) (exitCode : Int) : String :=
  "Container " ++ containerID ++ " exited with " ++ toString exitCode

/-- Embeds the `finishedPrefix` built by the Printer closure in
`Runner.Run`: `fmt.Sprintf("Container %s exited with", containerID)`. -/
def containerFinishedPref (containerID : String) : String :=
  "Container " ++ containerID ++ " exited with"

/-- Embeds Go's `strings.HasPrefix s pre` (a byte-wise prefix test). -/
def goHasPref (s pre : String) : Bool := pre.data.isPrefixOf s.data

/-- The detection predicate of the watcher's Printer closure in
`Runner.Run`: the event message starts with this container's finished
message shape (on a match the closure returns false, stopping the tail). -/
def printerDetectsFinished (containerID : String) (msg : String) : Bool :=
  goHasPref msg (containerFinishedPref containerID)

/-- The `DescribeLogStreamsInput` built by `logWriter.nextSequenceToken`
(named-field record of the fields the code sets). -/
structure DescribeLogStreamsInput where
  logGroupName : String
  logStreamNamePref : String
  descending : Bool
  limit : Option Int
deriving DecidableEq

/-- Stream metadata returned by the store. -/
structure LogStream where
  logStreamName : String
  uploadSequenceToken : Option String
deriving DecidableEq

/-- One record submitted by `PutLogEvents`
(`cloudwatchlogs.InputLogEvent`). -/
structure InputLogEvent where
  message : String
  timestamp : Int
deriving DecidableEq

/-- The `PutLogEventsInput` built by `logWriter.WriteString`. -/
structure PutLogEventsInput where
  sequenceToken : Option String
  logGroupName : String
  logStreamName : String
  logEvents : List InputLogEvent
deriving DecidableEq

/-- Configuration of a `logWriter`. -/
structure LogWriterCfg where
  logGroupName : String
  logStreamName : String
  interval : Nat
  timeout : Nat
deriving DecidableEq

/-- Configuration of a `logWaiter`. -/
structure LogWaiterCfg where
  logGroupName : String
  logStreamName : String
  interval : Nat
  timeout : Nat
deriving DecidableEq

/-- The waiter `logWriter.WriteString` constructs before appending: same
group, stream, interval and timeout as the writer (so the same defaults
apply inside `Wait`). -/
def writeStringWaiter (lw : LogWriterCfg) : LogWaiterCfg :=
  ⟨lw.logGroupName, lw.logStreamName, lw.interval, lw.timeout⟩

/-- The single directed lookup `logWriter.nextSequenceToken` issues:
exact group, the stream name as the name filter, newest first, at most
one stream. -/
def nextSequenceTokenInput (lw : LogWriterCfg) : DescribeLogStreamsInput :=
  { logGroupName := lw.logGroupName
    logStreamNamePref := lw.logStreamName
    descending := true
    limit := some 1 }

/-- The error message of `nextSequenceToken` when the lookup matches no
stream. -/
def noStreamFoundMessage (lw : LogWriterCfg) : String :=
  "failed to find stream " ++ lw.logStreamName ++ " in group " ++ lw.logGroupName

/-- Embeds `logWriter.nextSequenceToken` given the store's response to the
single lookup: store errors propagate, an empty match list is the
stream-not-found error, otherwise the first stream's upload sequence
token is the cursor. -/
def nextSequenceToken (lw : LogWriterCfg) (resp : Except GoError (List LogStream)) :
    Except GoError (Option String) :=
  match resp with
  | Except.error e => Except.error e
  | Except.ok [] => Except.error (GoError.plain (noStreamFoundMessage lw))
  | Except.ok (s :: _) => Except.ok s.uploadSequenceToken

/-- The `PutLogEventsInput` `WriteString` submits: the cursor, the
writer's group and stream, and exactly one event carrying the message and
the current wall-clock timestamp. -/
def writeStringPutInput (lw : LogWriterCfg) (token : Option String) (msg : String)
    (nowMillis : Int) : PutLogEventsInput :=
  { sequenceToken := token
    logGroupName := lw.logGroupName
    logStreamName := lw.logStreamName
    logEvents := [⟨msg, nowMillis⟩] }

/-- Trace of one `logWriter.WriteString` call: the describe and put calls
issued against the store and the returned error (`none` = success). -/
structure WriteStringTrace where
  describeCalls : List DescribeLogStreamsInput
  putCalls : List PutLogEventsInput
  result : Option GoError
deriving DecidableEq

/-- Embeds `logWriter.WriteString`. The collaborators' outcomes are
parameters: `waitResult` is the waiter's error (`none` = the stream
appeared), `describeResp` the store's response to the token lookup,
`putResult` the store's response to the put. -/
def WriteString (lw : LogWriterCfg) (waitResult : Option GoError)
    (describeResp : Except GoError (List LogStream)) (putResult : Option GoError)
    (msg : String) (nowMillis : Int) : WriteStringTrace :=
  match waitResult with
  | some e => ⟨[], [], some e⟩
  | none =>
    match nextSequenceToken lw describeResp with
    | Except.error e => ⟨[nextSequenceTokenInput lw], [], some e⟩
    | Except.ok token =>
      ⟨[nextSequenceTokenInput lw], [writeStringPutInput lw token msg nowMillis], putResult⟩

/-- Final state of one container as reported by `DescribeTasks` (name and
exit code; `Runner.Run` only reaches its exit-code loop once every
container has a non-nil exit code). -/
structure ContainerResult where
  name : String
  exitCode : Int
deriving DecidableEq

/-- Final state of one task: its containers in iteration order. -/
structure TaskResult where
  containers : List ContainerResult
deriving DecidableEq

/-- The `exitError` value `Runner.Run` returns: the wrapped error message
and the carried exit code (the `ExitCode()` method returns the latter). -/
structure ExitErrorModel where
  message : String
  exitCode : Int
deriving DecidableEq

/-- Embeds `exitError.ExitCode`. -/
def ExitCode (ee : ExitErrorModel) : Int := ee.exitCode

/-- The message `fmt.Errorf("container %s exited with %d", ...)` wrapped
by the `exitError` in `Runner.Run`. -/
def exitErrorMessage (c : ContainerResult) : String :=
  "container " ++ c.name ++ " exited with " ++ toString c.exitCode

/-- Inner loop of `Runner.Run`'s final scan: first container of this task
with a non-zero exit code, as an `exitError`. -/
def runExitScanContainers : List ContainerResult → Option ExitErrorModel
  | [] => none
  | c :: rest =>
    if c.exitCode != 0 then some ⟨exitErrorMessage c, c.exitCode⟩
    else runExitScanContainers rest

/-- Embeds the final loop of `Runner.Run`: iterate tasks, then containers,
returning the `exitError` for the first non-zero exit code, else the nil
`err` the loop falls through to. -/
def runExitScan : List TaskResult → Option ExitErrorModel
  | [] => none
  | t :: rest =>
    match runExitScanContainers t.containers with
    | some e => some e
    | none => runExitScan rest

/-! Helper lemmas -/

/-- The conditional watermark update of the Go loop is the binary max. -/
theorem if_gt_eq_max (a b : Int) : (if b > a then b else a) = max a b := by
  split <;> omega

/-- Folding the watermark update over a list of events. -/
def advanceTs (es : List FilteredLogEvent) (ts : Int) : Int :=
  es.foldl (fun a e => max a e.timestamp) ts

theorem advanceTs_nil (ts : Int) : advanceTs [] ts = ts := rfl

theorem advanceTs_cons (e : FilteredLogEvent) (es : List FilteredLogEvent) (ts : Int) :
    advanceTs (e :: es) ts = advanceTs es (max ts e.timestamp) := rfl

theorem advanceTs_append (l l' : List FilteredLogEvent) (ts : Int) :
    advanceTs (l ++ l') ts = advanceTs l' (advanceTs l ts) :=
  List.foldl_append _ _ _ _

theorem le_advanceTs (es : List FilteredLogEvent) : ∀ ts : Int, ts ≤ advanceTs es ts := by
  induction es with
  | nil => intro ts; exact le_refl ts
  | cons e rest ih =>
    intro ts
    calc ts ≤ max ts e.timestamp := le_max_left _ _
      _ ≤ advanceTs rest (max ts e.timestamp) := ih _
      _ = advanceTs (e :: rest) ts := (advanceTs_cons _ _ _).symm

theorem mem_le_advanceTs (es : List FilteredLogEvent) :
    ∀ (ts : Int) (e : FilteredLogEvent), e ∈ es → e.timestamp ≤ advanceTs es ts := by
  induction es with
  | nil => intro ts e h; cases h
  | cons x rest ih =>
    intro ts e h
    rw [List.mem_cons] at h
    rcases h with h | h
    · subst h
      calc e.timestamp ≤ max ts e.timestamp := le_max_right _ _
        _ ≤ advanceTs rest (max ts e.timestamp) := le_advanceTs _ _
        _ = advanceTs (e :: rest) ts := (advanceTs_cons _ _ _).symm
    · rw [advanceTs_cons]
      exact ih _ e h

/-- A non-panicking run of the per-event loop delivers every event and
folds the watermark over all of them. -/
theorem printEventsLoop_not_panicked (printer : FilteredLogEvent → Bool)
    (es : List FilteredLogEvent) : ∀ (ts : Int) (st : Option ChanState),
    (printEventsLoop printer es ts st).panicked = false →
    (printEventsLoop printer es ts st).delivered = es
    ∧ (printEventsLoop printer es ts st).ts = advanceTs es ts := by
  induction es with
  | nil => intro ts st _; exact ⟨rfl, rfl⟩
  | cons e rest ih =>
    intro ts st h
    rw [advanceTs_cons, ← if_gt_eq_max]
    by_cases hp : printer e
    · simp only [printEventsLoop, hp, if_true] at h ⊢
      exact ⟨congrArg (e :: ·) (ih _ _ h).1, (ih _ _ h).2⟩
    · match st with
      | none =>
        simp only [printEventsLoop, hp, if_false, Stop] at h ⊢
        exact ⟨congrArg (e :: ·) (ih _ _ h).1, (ih _ _ h).2⟩
      | some ChanState.opened =>
        simp only [printEventsLoop, hp, if_false, Stop] at h ⊢
        exact ⟨congrArg (e :: ·) (ih _ _ h).1, (ih _ _ h).2⟩
      | some ChanState.closed =>
        simp [printEventsLoop, hp, Stop] at h

/-- A non-panicking poll iteration delivers every event of every page and
folds the watermark across the whole fetch. -/
theorem printEventsAfter_not_panicked (printer : FilteredLogEvent → Bool)
    (pages : List (List FilteredLogEvent)) : ∀ (ts : Int) (st : Option ChanState),
    (printEventsAfter printer pages ts st).panicked = false →
    (printEventsAfter printer pages ts st).delivered = pages.flatten
    ∧ (printEventsAfter printer pages ts st).ts = advanceTs pages.flatten ts := by
  induction pages with
  | nil => intro ts st _; simp [printEventsAfter, advanceTs]
  | cons pg pgs ih =>
    intro ts st h
    simp only [printEventsAfter] at h ⊢
    by_cases hr : (printEventsLoop printer pg ts st).panicked
    · rw [if_pos hr] at h
      exact absurd h (by simp [hr])
    · rw [if_neg hr] at h ⊢
      simp only at h ⊢
      rw [Bool.not_eq_true] at hr
      obtain ⟨hd, hts⟩ := printEventsLoop_not_panicked printer pg ts st hr
      obtain ⟨hd2, hts2⟩ := ih _ _ h
      refine ⟨?_, ?_⟩
      · rw [hd, hd2, List.flatten_cons]
      · rw [hts2, hts, List.flatten_cons, advanceTs_append]

/-- C1: one poll iteration of the tailer (`logWatcher.printEventsAfter`)
with input watermark `ts` and any sequence of record pages, provided it
returns (does not panic), delivers every record of every page and returns
the maximum of `ts` and all delivered timestamps, advanced across the
whole fetch; the next fetch's `StartTime` is that watermark plus one, so
no delivered record (timestamp ≤ watermark) is fetched again, while every
record with a strictly later timestamp is fetched. -/
theorem C1_poll_watermark (printer : FilteredLogEvent → Bool)
    (pages : List (List FilteredLogEvent)) (ts : Int) (st : Option ChanState)
    (hnp : (printEventsAfter printer pages ts st).panicked = false) :
    (printEventsAfter printer pages ts st).delivered = pages.flatten
    ∧ (printEventsAfter printer pages ts st).ts = advanceTs pages.flatten ts
    ∧ filterStartTime (printEventsAfter printer pages ts st).ts
        = (printEventsAfter printer pages ts st).ts + 1
    ∧ (∀ e ∈ (printEventsAfter printer pages ts st).delivered,
        fetchDelivers (printEventsAfter printer pages ts st).ts e = false)
    ∧ (∀ e : FilteredLogEvent, (printEventsAfter printer pages ts st).ts < e.timestamp →
        fetchDelivers (printEventsAfter printer pages ts st).ts e = true) := by
  obtain ⟨hd, hts⟩ := printEventsAfter_not_panicked printer pages ts st hnp
  refine ⟨hd, hts, rfl, ?_, ?_⟩
  · intro e he
    rw [hd] at he
    have hle : e.timestamp ≤ (printEventsAfter printer pages ts st).ts := by
      rw [hts]; exact mem_le_advanceTs _ _ _ he
    simp only [fetchDelivers, filterStartTime, decide_eq_false_iff_not]
    omega
  · intro e hgt
    simp only [fetchDelivers, filterStartTime, decide_eq_true_eq]
    omega

/-- Witness for C1 at a concrete two-page fetch. -/
theorem C1_poll_watermark_witness :
    (printEventsAfter (fun _ => true) [[⟨5, "a"⟩], [⟨3, "b"⟩]] 4 watchStartChan).panicked = false
    ∧ ((printEventsAfter (fun _ => true) [[⟨5, "a"⟩], [⟨3, "b"⟩]] 4 watchStartChan).delivered
          = [[⟨5, "a"⟩], [⟨3, "b"⟩]].flatten
      ∧ (printEventsAfter (fun _ => true) [[⟨5, "a"⟩], [⟨3, "b"⟩]] 4 watchStartChan).ts
          = advanceTs [[(⟨5, "a"⟩ : FilteredLogEvent)], [⟨3, "b"⟩]].flatten 4
      ∧ filterStartTime (printEventsAfter (fun _ => true) [[⟨5, "a"⟩], [⟨3, "b"⟩]] 4 watchStartChan).ts
          = (printEventsAfter (fun _ => true) [[⟨5, "a"⟩], [⟨3, "b"⟩]] 4 watchStartChan).ts + 1
      ∧ (∀ e ∈ (printEventsAfter (fun _ => true) [[⟨5, "a"⟩], [⟨3, "b"⟩]] 4 watchStartChan).delivered,
          fetchDelivers (printEventsAfter (fun _ => true) [[⟨5, "a"⟩], [⟨3, "b"⟩]] 4 watchStartChan).ts e
            = false)
      ∧ (∀ e : FilteredLogEvent,
          (printEventsAfter (fun _ => true) [[⟨5, "a"⟩], [⟨3, "b"⟩]] 4 watchStartChan).ts < e.timestamp →
          fetchDelivers (printEventsAfter (fun _ => true) [[⟨5, "a"⟩], [⟨3, "b"⟩]] 4 watchStartChan).ts e
            = true)) :=
  ⟨by decide, C1_poll_watermark (fun _ => true) [[⟨5, "a"⟩], [⟨3, "b"⟩]] 4 watchStartChan (by decide)⟩

/-- C2 (counterexample): `Watch` seeds the watermark from
`time.Now().Unix() * 1000`, the wall clock truncated to a whole second,
not the wall-clock milliseconds: with the wait beginning at 1500 ms since
epoch the watermark is 1000, and the record timestamped 1200 — emitted
before the wait began — is fetched by the first poll, i.e. replayed. -/
theorem C2_counterexample :
    watchInitialWatermark 1500 ≠ 1500
    ∧ (1200 : Int) < 1500
    ∧ fetchDelivers (watchInitialWatermark 1500) ⟨1200, "emitted before the wait"⟩ = true := by
  decide

/-- C2 (amended): the watermark captured before `waiter.Wait` is invoked
is the wall clock at that moment truncated down to a whole second
(seconds since epoch times 1000): it never exceeds the true wall-clock
milliseconds, lags it by less than a second, records timestamped at or
before the truncated watermark are never replayed, and no record
timestamped strictly after the capture instant is lost. -/
theorem C2_watch_initial_watermark (now : Int) (h : 0 ≤ now) :
    watchInitialWatermark now = now / 1000 * 1000
    ∧ watchInitialWatermark now ≤ now
    ∧ now < watchInitialWatermark now + 1000
    ∧ (∀ e : FilteredLogEvent, e.timestamp ≤ watchInitialWatermark now →
        fetchDelivers (watchInitialWatermark now) e = false)
    ∧ (∀ e : FilteredLogEvent, now < e.timestamp →
        fetchDelivers (watchInitialWatermark now) e = true) := by
  have hle : watchInitialWatermark now ≤ now := by
    unfold watchInitialWatermark; omega
  have hlt : now < watchInitialWatermark now + 1000 := by
    unfold watchInitialWatermark; omega
  refine ⟨rfl, hle, hlt, ?_, ?_⟩
  · intro e he
    simp only [fetchDelivers, filterStartTime, decide_eq_false_iff_not]
    omega
  · intro e he
    simp only [fetchDelivers, filterStartTime, decide_eq_true_eq]
    omega

/-- Witness for C2's amended theorem at clock value 1500 ms. -/
theorem C2_watch_initial_watermark_witness :
    (0 : Int) ≤ 1500
    ∧ (watchInitialWatermark 1500 = 1500 / 1000 * 1000
      ∧ watchInitialWatermark 1500 ≤ 1500
      ∧ (1500 : Int) < watchInitialWatermark 1500 + 1000
      ∧ (∀ e : FilteredLogEvent, e.timestamp ≤ watchInitialWatermark 1500 →
          fetchDelivers (watchInitialWatermark 1500) e = false)
      ∧ (∀ e : FilteredLogEvent, (1500 : Int) < e.timestamp →
          fetchDelivers (watchInitialWatermark 1500) e = true)) :=
  ⟨by decide, C2_watch_initial_watermark 1500 (by decide)⟩

/-- C3: on a watcher whose `Watch` has started (stop channel freshly
made), the first `Stop` succeeds, but a second `Stop` panics — `lw.stop`
is still non-nil, so the already-closed channel is closed again — rather
than returning an error; only `Stop` on a never-started watcher (nil
channel) returns the error. -/
theorem C3_stop_twice_panics :
    (Stop watchStartChan).1 = StopOutcome.ok
    ∧ (Stop (Stop watchStartChan).2).1 = StopOutcome.panicked
    ∧ (Stop (Stop watchStartChan).2).1 ≠ StopOutcome.errNotStarted
    ∧ (Stop none).1 = StopOutcome.errNotStarted := by
  decide

/-- With a printer that accepts every event the per-event loop delivers
everything, makes no `Stop` call and leaves the channel untouched. -/
theorem printEventsLoop_all_true (printer : FilteredLogEvent → Bool) :
    ∀ (es : List FilteredLogEvent), (∀ x ∈ es, printer x = true) →
    ∀ (ts : Int) (st : Option ChanState),
      printEventsLoop printer es ts st = ⟨es, advanceTs es ts, st, 0, false⟩ := by
  intro es
  induction es with
  | nil => intro _ ts st; rfl
  | cons e rest ih =>
    intro h ts st
    have he : printer e = true := h e (List.mem_cons_self e rest)
    have hr : ∀ x ∈ rest, printer x = true := fun x hx => h x (List.mem_cons_of_mem e hx)
    simp only [printEventsLoop, he, if_true, ih hr, advanceTs_cons, ← if_gt_eq_max]

/-- With a printer that accepts every event a whole poll iteration
delivers every page, makes no `Stop` call and leaves the channel
untouched. -/
theorem printEventsAfter_all_true (printer : FilteredLogEvent → Bool) :
    ∀ (pages : List (List FilteredLogEvent)), (∀ x ∈ pages.flatten, printer x = true) →
    ∀ (ts : Int) (st : Option ChanState),
      printEventsAfter printer pages ts st
        = ⟨pages.flatten, advanceTs pages.flatten ts, st, 0, false⟩ := by
  intro pages
  induction pages with
  | nil => intro _ ts st; rfl
  | cons pg pgs ih =>
    intro h ts st
    rw [List.flatten_cons] at h
    have hpg : ∀ x ∈ pg, printer x = true := fun x hx => h x (List.mem_append_left _ hx)
    have hps : ∀ x ∈ pgs.flatten, printer x = true :=
      fun x hx => h x (List.mem_append_right _ hx)
    simp only [printEventsAfter, printEventsLoop_all_true printer pg hpg, ih hps]
    simp [List.flatten_cons, advanceTs_append]

/-- Starting from the open stop channel, a per-event run in which the
printer rejects at most one event never panics: every event is delivered,
the watermark folds over all of them, `Stop` runs once per rejection, and
the channel ends closed exactly when a rejection occurred. -/
theorem printEventsLoop_le_one_false (printer : FilteredLogEvent → Bool) :
    ∀ (es : List FilteredLogEvent) (ts : Int),
      es.countP (fun x => !printer x) ≤ 1 →
      printEventsLoop printer es ts (some ChanState.opened)
        = ⟨es, advanceTs es ts,
            if es.countP (fun x => !printer x) = 0 then some ChanState.opened
            else some ChanState.closed,
            es.countP (fun x => !printer x), false⟩ := by
  intro es
  induction es with
  | nil => intro ts _; rfl
  | cons e rest ih =>
    intro ts h
    by_cases hp : printer e
    · have hpe : ¬(!printer e) = true := by simp [hp]
      rw [List.countP_cons_of_neg (fun x => !printer x) rest hpe] at h ⊢
      simp only [printEventsLoop, hp, if_true, ih _ h, advanceTs_cons, ← if_gt_eq_max]
    · have hpe : (!printer e) = true := by
        rw [Bool.not_eq_true] at hp; rw [hp]; rfl
      rw [List.countP_cons_of_pos (fun x => !printer x) rest hpe] at h ⊢
      have hz : rest.countP (fun x => !printer x) = 0 := by omega
      have hall : ∀ x ∈ rest, printer x = true := by
        intro x hx
        have := List.countP_eq_zero.mp hz x hx
        simpa using this
      rw [Bool.not_eq_true] at hp
      simp [printEventsLoop, hp, Stop,
        printEventsLoop_all_true printer rest hall, advanceTs_cons, ← if_gt_eq_max, hz]

/-- Starting from the open stop channel, a poll iteration in which the
printer rejects at most one event across all pages never panics; the
channel ends closed exactly when a rejection occurred and `Stop` ran once
per rejection. -/
theorem printEventsAfter_le_one_false (printer : FilteredLogEvent → Bool) :
    ∀ (pages : List (List FilteredLogEvent)) (ts : Int),
      pages.flatten.countP (fun x => !printer x) ≤ 1 →
      printEventsAfter printer pages ts (some ChanState.opened)
        = ⟨pages.flatten, advanceTs pages.flatten ts,
            if pages.flatten.countP (fun x => !printer x) = 0 then some ChanState.opened
            else some ChanState.closed,
            pages.flatten.countP (fun x => !printer x), false⟩ := by
  intro pages
  induction pages with
  | nil => intro ts _; rfl
  | cons pg pgs ih =>
    intro ts h
    rw [List.flatten_cons] at h ⊢
    rw [List.countP_append] at h ⊢
    have hpg1 : pg.countP (fun x => !printer x) ≤ 1 := by omega
    by_cases hz : pg.countP (fun x => !printer x) = 0
    · have hrest : pgs.flatten.countP (fun x => !printer x) ≤ 1 := by omega
      simp [printEventsAfter, printEventsLoop_le_one_false printer pg ts hpg1, hz,
        ih _ hrest, advanceTs_append]
    · have h1 : pg.countP (fun x => !printer x) = 1 := by omega
      have hz2 : pgs.flatten.countP (fun x => !printer x) = 0 := by omega
      have hall : ∀ x ∈ pgs.flatten, printer x = true := by
        intro x hx
        have := List.countP_eq_zero.mp hz2 x hx
        simpa using this
      simp [printEventsAfter, printEventsLoop_le_one_false printer pg ts hpg1, h1,
        printEventsAfter_all_true printer pgs hall, hz2, advanceTs_append]

/-- C4 (counterexample): a sink that returns false on the first record it
sees, when the first fetch carries a second record that also draws a
false, makes the watcher panic on the second `Stop` (double close of the
stop channel) instead of terminating the tail loop without error. -/
theorem C4_counterexample :
    ((fun _ => false) : FilteredLogEvent → Bool) ⟨1, "a"⟩ = false
    ∧ (watchLoop (fun _ => false) watchStartChan 0
        [[[⟨1, "a"⟩, ⟨2, "b"⟩]], [[⟨3, "c"⟩]]]).1 = WatchOutcome.panicked := by
  decide

/-- C4 (amended): if the sink returns false on the first record of the
fetch and true on the remaining records of that same fetch, the tail loop
terminates without error — the next select fires on the closed stop
channel and `Watch` returns nil — after exactly that one fetch, with no
further fetch issued no matter how many polls are still queued. -/
theorem C4_sink_false_terminates (printer : FilteredLogEvent → Bool)
    (ts : Int) (pages : List (List FilteredLogEvent))
    (polls : List (List (List FilteredLogEvent))) (e : FilteredLogEvent)
    (es : List FilteredLogEvent)
    (hflat : pages.flatten = e :: es)
    (hfirst : printer e = false)
    (hrest : ∀ x ∈ es, printer x = true) :
    watchLoop printer watchStartChan ts (pages :: polls) = (WatchOutcome.ok, 1) := by
  have hz : es.countP (fun x => !printer x) = 0 :=
    List.countP_eq_zero.mpr (by intro a ha; rw [hrest a ha]; simp)
  have hcount : pages.flatten.countP (fun x => !printer x) = 1 := by
    rw [hflat, List.countP_cons, hz, hfirst]
    rfl
  have hr := printEventsAfter_le_one_false printer pages ts (le_of_eq hcount)
  rw [hcount] at hr
  simp only [watchStartChan, watchLoop, hr]
  simp [watchLoop]

/-- Witness for C4's amended theorem: a two-record fetch whose first
record draws the false, followed by a queued second poll that is never
fetched. -/
theorem C4_sink_false_terminates_witness :
    [[(⟨1, "done"⟩ : FilteredLogEvent), ⟨2, "x"⟩]].flatten = [⟨1, "done"⟩, ⟨2, "x"⟩]
    ∧ (fun ev : FilteredLogEvent => ev.timestamp != 1) ⟨1, "done"⟩ = false
    ∧ (∀ x ∈ [(⟨2, "x"⟩ : FilteredLogEvent)],
        (fun ev : FilteredLogEvent => ev.timestamp != 1) x = true)
    ∧ watchLoop (fun ev : FilteredLogEvent => ev.timestamp != 1) watchStartChan 0
        [[[⟨1, "done"⟩, ⟨2, "x"⟩]], [[⟨9, "y"⟩]]] = (WatchOutcome.ok, 1) :=
  ⟨by decide, by decide, by decide,
    C4_sink_false_terminates (fun ev => ev.timestamp != 1) 0
      [[⟨1, "done"⟩, ⟨2, "x"⟩]] [[[⟨9, "y"⟩]]] ⟨1, "done"⟩ [⟨2, "x"⟩]
      (by decide) (by decide) (by decide)⟩

/-- C10 (counterexample): when two records of one fetch draw a false from
the Printer, the second `Stop` panics mid-iteration: the third
already-fetched record is never handed to the Printer, so an earlier
false does suppress delivery of the remaining records. -/
theorem C10_counterexample :
    (printEventsAfter (fun _ => false) [[⟨1, "a"⟩, ⟨2, "b"⟩, ⟨3, "c"⟩]] 0
        watchStartChan).delivered = [⟨1, "a"⟩, ⟨2, "b"⟩]
    ∧ (printEventsAfter (fun _ => false) [[⟨1, "a"⟩, ⟨2, "b"⟩, ⟨3, "c"⟩]] 0
        watchStartChan).panicked = true
    ∧ (⟨3, "c"⟩ : FilteredLogEvent) ∉
        (printEventsAfter (fun _ => false) [[⟨1, "a"⟩, ⟨2, "b"⟩, ⟨3, "c"⟩]] 0
          watchStartChan).delivered := by
  decide

/-- C10 (amended): within a single poll iteration started with the stop
channel open, provided the Printer returns false for at most one event of
the fetch, a false does not suppress delivery: the Printer is invoked for
every event of every page in arrival order, `Stop` is invoked once per
false-returning event, the watermark advances past all events, and the
iteration does not panic (a second false in the same fetch would panic on
the second `Stop`, abandoning the rest, as the counterexample shows). -/
theorem C10_false_does_not_suppress (printer : FilteredLogEvent → Bool)
    (pages : List (List FilteredLogEvent)) (ts : Int)
    (hcount : pages.flatten.countP (fun x => !printer x) ≤ 1) :
    (printEventsAfter printer pages ts watchStartChan).delivered = pages.flatten
    ∧ (printEventsAfter printer pages ts watchStartChan).ts = advanceTs pages.flatten ts
    ∧ (printEventsAfter printer pages ts watchStartChan).stops
        = pages.flatten.countP (fun x => !printer x)
    ∧ (printEventsAfter printer pages ts watchStartChan).panicked = false := by
  have h := printEventsAfter_le_one_false printer pages ts hcount
  simp only [watchStartChan, h]
  exact ⟨trivial, trivial, trivial, trivial⟩

/-- Witness for C10's amended theorem: a two-page fetch whose middle
record draws the single false. -/
theorem C10_false_does_not_suppress_witness :
    [[(⟨1, "a"⟩ : FilteredLogEvent)], [⟨2, "done"⟩, ⟨3, "c"⟩]].flatten.countP
        (fun x => !(fun ev : FilteredLogEvent => ev.timestamp != 2) x) ≤ 1
    ∧ ((printEventsAfter (fun ev : FilteredLogEvent => ev.timestamp != 2)
          [[⟨1, "a"⟩], [⟨2, "done"⟩, ⟨3, "c"⟩]] 0 watchStartChan).delivered
        = [[(⟨1, "a"⟩ : FilteredLogEvent)], [⟨2, "done"⟩, ⟨3, "c"⟩]].flatten
      ∧ (printEventsAfter (fun ev : FilteredLogEvent => ev.timestamp != 2)
          [[⟨1, "a"⟩], [⟨2, "done"⟩, ⟨3, "c"⟩]] 0 watchStartChan).ts
        = advanceTs [[(⟨1, "a"⟩ : FilteredLogEvent)], [⟨2, "done"⟩, ⟨3, "c"⟩]].flatten 0
      ∧ (printEventsAfter (fun ev : FilteredLogEvent => ev.timestamp != 2)
          [[⟨1, "a"⟩], [⟨2, "done"⟩, ⟨3, "c"⟩]] 0 watchStartChan).stops
        = [[(⟨1, "a"⟩ : FilteredLogEvent)], [⟨2, "done"⟩, ⟨3, "c"⟩]].flatten.countP
            (fun x => !(fun ev : FilteredLogEvent => ev.timestamp != 2) x)
      ∧ (printEventsAfter (fun ev : FilteredLogEvent => ev.timestamp != 2)
          [[⟨1, "a"⟩], [⟨2, "done"⟩, ⟨3, "c"⟩]] 0 watchStartChan).panicked = false) :=
  ⟨by decide,
    C10_false_does_not_suppress (fun ev => ev.timestamp != 2)
      [[⟨1, "a"⟩], [⟨2, "done"⟩, ⟨3, "c"⟩]] 0 (by decide)⟩

/-- The effective poll interval is always positive. -/
theorem effectiveInterval_pos (interval : Nat) : 0 < effectiveInterval interval := by
  unfold effectiveInterval defaultLogPollIntervalMs
  split
  · omega
  · omega

/-- For a stream that never exists, `Wait` returns the timeout error at
wall-clock time exactly `T`, for any positive poll interval and enough
fuel. -/
theorem waitTimeoutAt_some (p T : Nat) (hp : 0 < p) :
    ∀ (fuel s : Nat), s ≤ T → T ≤ s + (fuel + 1) * p →
      waitTimeoutAt p T (fuel + 1) s = some T := by
  intro fuel
  induction fuel with
  | zero =>
    intro s h1 h2
    rw [Nat.one_mul] at h2
    unfold waitTimeoutAt
    rw [if_pos h2]
    exact congrArg some (Nat.max_eq_right h1)
  | succ f ihf =>
    intro s h1 h2
    unfold waitTimeoutAt
    by_cases hc : T ≤ s + p
    · rw [if_pos hc]
      exact congrArg some (Nat.max_eq_right h1)
    · rw [if_neg hc]
      exact ihf (s + p) (by omega) (by nlinarith)

/-- C5: for a stream that never comes into existence, `logWaiter.Wait`
(with instantaneous, error-free existence checks) returns the timed-out
error — whose message names the target stream — at a time `R` with
`timeout ≤ R ≤ timeout + pollInterval` (indeed exactly at the effective
timeout), where the effective poll interval defaults to 2 seconds and the
effective timeout to 60 minutes when the configured values are zero. -/
theorem C5_wait_times_out (interval timeout : Nat) (n : String) :
    effectiveInterval 0 = 2000
    ∧ effectiveTimeout 0 = 3600000
    ∧ defaultLogPollIntervalMs = 2000
    ∧ defaultLogTimeoutMs = 3600000
    ∧ timedOutMessage n = "Timed out waiting for stream " ++ n
    ∧ (∃ R, waitTimeoutAt (effectiveInterval interval) (effectiveTimeout timeout)
          (effectiveTimeout timeout + 1) 0 = some R
        ∧ effectiveTimeout timeout ≤ R
        ∧ R ≤ effectiveTimeout timeout + effectiveInterval interval) := by
  refine ⟨rfl, rfl, rfl, rfl, rfl, effectiveTimeout timeout, ?_, le_refl _, Nat.le_add_right _ _⟩
  have hp := effectiveInterval_pos interval
  apply waitTimeoutAt_some _ _ hp
  · exact Nat.zero_le _
  · have : effectiveTimeout timeout + 1 ≤ (effectiveTimeout timeout + 1) * effectiveInterval interval :=
      Nat.le_mul_of_pos_right _ hp
    omega

/-- C6: a `Throttling` error from the existence check makes `Wait` sleep
the fixed 5-second backoff (a constant distinct from the default poll
interval, and independent of any configured interval) and retry; a
rate-limited error is never surfaced by the loop, while any
non-rate-limited error is returned immediately, without consuming any
further scripted store response. -/
theorem C6_rate_limit_backoff :
    (∀ (exists_ : Bool) (m : String),
        waitHandleCheck exists_ (some (GoError.awsErr "Throttling" m))
          = WaitStep.retryAfterBackoff rateLimitBackoffMs)
    ∧ rateLimitBackoffMs = 5000
    ∧ rateLimitBackoffMs ≠ defaultLogPollIntervalMs
    ∧ (∀ (script : List (Bool × Option GoError)) (e : GoError),
        waitRun script = WaitResult.err e → isRateLimited (some e) = false)
    ∧ (∀ (exists_ : Bool) (e : GoError) (rest : List (Bool × Option GoError)),
        isRateLimited (some e) = false →
          waitRun ((exists_, some e) :: rest) = WaitResult.err e) := by
  refine ⟨?_, rfl, by decide, ?_, ?_⟩
  · intro exists_ m
    simp [waitHandleCheck, isRateLimited]
  · intro script
    induction script with
    | nil => intro e h; cases h
    | cons head rest ih =>
      intro e h
      obtain ⟨exists_, err⟩ := head
      by_cases hrl : isRateLimited err
      · rw [waitRun] at h
        simp only [waitHandleCheck, if_pos hrl] at h
        exact ih e h
      · rw [waitRun] at h
        simp only [waitHandleCheck, if_neg hrl] at h
        match err with
        | some e2 =>
          simp only at h
          cases h
          rwa [Bool.not_eq_true] at hrl
        | none =>
          by_cases hex : exists_
          · subst hex; simp only [if_true] at h; cases h
          · rw [Bool.not_eq_true] at hex
            subst hex
            simp only [Bool.false_eq_true, if_false] at h
            exact ih e h
  · intro exists_ e rest hrl
    rw [waitRun]
    simp only [waitHandleCheck, hrl, Bool.false_eq_true, if_false]

/-- Bridges the boolean byte-wise test embedding Go's strings.HasPrefix
with the propositional prefix relation on character lists. -/
theorem isPrefixOf_true_iff : ∀ (l₁ l₂ : List Char), l₁.isPrefixOf l₂ = true ↔ l₁ <+: l₂
  | [], l₂ => by
    constructor
    · intro _
      exact ⟨l₂, rfl⟩
    · intro _
      cases l₂ <;> rfl
  | a :: l₁, [] => by
    constructor
    · intro h
      simp [List.isPrefixOf] at h
    · intro h
      have := h.length_le
      simp at this
  | a :: l₁, b :: l₂ => by
    show (a == b && l₁.isPrefixOf l₂) = true ↔ _
    rw [Bool.and_eq_true, beq_iff_eq, isPrefixOf_true_iff l₁ l₂, List.cons_prefix_cons]

/-- Taking the run of non-space characters of a space-free list followed
by a space recovers exactly that list. -/
theorem takeWhile_space_free (u : List Char) :
    ∀ (c : List Char), (∀ x ∈ c, x ≠ ' ') →
      List.takeWhile (fun x => x != ' ') (c ++ ' ' :: u) = c := by
  intro c
  induction c with
  | nil =>
    intro _
    simp [List.takeWhile_cons]
  | cons a c ihc =>
    intro h
    have ha : a ≠ ' ' := h a (List.mem_cons_self a c)
    have hc : ∀ x ∈ c, x ≠ ' ' := fun x hx => h x (List.mem_cons_of_mem a hx)
    rw [List.cons_append, List.takeWhile_cons, if_pos (bne_iff_ne.mpr ha), ihc hc]

/-- The finished-message shape is injective in the container identifier
for space-free identifiers: if the watcher's finished prefix for `c`
opens the writer's finished message for `c'`, the identifiers agree. -/
theorem finishedPref_inj (c c' : String) (e' : Int)
    (hc : ∀ x ∈ c.data, x ≠ ' ') (hc' : ∀ x ∈ c'.data, x ≠ ' ')
    (hpre : (containerFinishedPref c).data <+: (containerFinishedMessage c' e').data) :
    c = c' := by
  obtain ⟨r, hr⟩ := hpre
  have hP : (" exited with" : String).data = ' ' :: ("exited with" : String).data := by
    decide
  have hW : (" exited with " : String).data
      = ' ' :: (("exited with" : String).data ++ [' ']) := by
    decide
  simp only [containerFinishedMessage, containerFinishedPref, String.data_append, hP, hW,
    List.append_assoc, List.cons_append, List.singleton_append] at hr
  simp only [List.cons.injEq, List.nil_append, eq_self_iff_true, true_and] at hr
  have htw := congrArg (List.takeWhile (fun x => x != ' ')) hr
  rw [takeWhile_space_free _ c.data hc, takeWhile_space_free _ c'.data hc'] at htw
  exact String.ext htw

/-- The watcher's detection predicate accepts every message the writer
produces for the same container identifier. -/
theorem printerDetectsFinished_self (c : String) (e : Int) :
    printerDetectsFinished c (containerFinishedMessage c e) = true := by
  have hSS : (" exited with " : String).data
      = (" exited with" : String).data ++ [' '] := by decide
  have hpre : (containerFinishedPref c).data <+: (containerFinishedMessage c e).data := by
    refine ⟨' ' :: (toString e).data, ?_⟩
    simp only [containerFinishedMessage, containerFinishedPref, String.data_append, hSS,
      List.append_assoc, List.cons_append, List.singleton_append, List.nil_append]
  simp only [printerDetectsFinished, goHasPref]
  exact (isPrefixOf_true_iff _ _).mpr hpre

/-- C7 (counterexample): distinctness of the container identifiers alone
does not keep a sibling's marker from matching: the identifier
`"a exited with 0"` is distinct from `"a"`, yet its completion marker is
detected by the watcher for container `"a"`. -/
theorem C7_counterexample :
    ("a" : String) ≠ "a exited with 0"
    ∧ printerDetectsFinished "a" (containerFinishedMessage "a exited with 0" 1) = true := by
  decide

/-- C7 (amended): the completion message for container `c` and exit code
`e` is exactly `Container <c> exited with <e>`, one record per append
call, and for space-free container identifiers the watcher's
prefix-detection for `c` accepts exactly the markers written for `c`: it
matches the writer's message for `c` and rejects the message written for
any distinct space-free sibling identifier. -/
theorem C7_completion_marker (c c' : String) (e e' : Int)
    (hc : ∀ x ∈ c.data, x ≠ ' ') (hc' : ∀ x ∈ c'.data, x ≠ ' ') (hne : c ≠ c') :
    containerFinishedMessage c e = "Container " ++ c ++ " exited with " ++ toString e
    ∧ (∀ (lw : LogWriterCfg) (token : Option String) (now : Int),
        (writeStringPutInput lw token (containerFinishedMessage c e) now).logEvents
          = [⟨containerFinishedMessage c e, now⟩])
    ∧ printerDetectsFinished c (containerFinishedMessage c e) = true
    ∧ printerDetectsFinished c (containerFinishedMessage c' e') = false := by
  refine ⟨rfl, fun lw token now => rfl, printerDetectsFinished_self c e, ?_⟩
  cases hdet : printerDetectsFinished c (containerFinishedMessage c' e') with
  | false => rfl
  | true =>
    exfalso
    have hpre : (containerFinishedPref c).data <+: (containerFinishedMessage c' e').data := by
      have hdet2 := hdet
      simp only [printerDetectsFinished, goHasPref] at hdet2
      exact (isPrefixOf_true_iff _ _).mp hdet2
    exact hne (finishedPref_inj c c' e' hc hc' hpre)

/-- Witness for C7's amended theorem at the spec's own example marker. -/
theorem C7_completion_marker_witness :
    (∀ x ∈ ("abc123" : String).data, x ≠ ' ')
    ∧ (∀ x ∈ ("def" : String).data, x ≠ ' ')
    ∧ ("abc123" : String) ≠ "def"
    ∧ containerFinishedMessage "abc123" 137 = "Container abc123 exited with 137"
    ∧ (containerFinishedMessage "abc123" 137
        = "Container " ++ "abc123" ++ " exited with " ++ toString (137 : Int)
      ∧ (∀ (lw : LogWriterCfg) (token : Option String) (now : Int),
          (writeStringPutInput lw token (containerFinishedMessage "abc123" 137) now).logEvents
            = [⟨containerFinishedMessage "abc123" 137, now⟩])
      ∧ printerDetectsFinished "abc123" (containerFinishedMessage "abc123" 137) = true
      ∧ printerDetectsFinished "abc123" (containerFinishedMessage "def" 0) = false) :=
  ⟨by decide, by decide, by decide, by decide,
    C7_completion_marker "abc123" "def" 137 0 (by decide) (by decide) (by decide)⟩

/-- C8: `logWriter.WriteString` waits first with a waiter carrying the
writer's own group, stream, interval and timeout; on success it issues
exactly one `DescribeLogStreams` lookup requesting one matching stream
newest-first, then exactly one put carrying one record with the message
and the current wall-clock timestamp, tagged with the looked-up cursor;
a wait error is returned with no store call, an empty lookup yields the
stream-not-found error with no put, a lookup error propagates with no
put, and the store's response to the put — rejection or success — is
returned unchanged, with no retry of either call. -/
theorem C8_WriteString_protocol (lw : LogWriterCfg) (waitResult : Option GoError)
    (describeResp : Except GoError (List LogStream)) (putResult : Option GoError)
    (msg : String) (nowMillis : Int) :
    writeStringWaiter lw = ⟨lw.logGroupName, lw.logStreamName, lw.interval, lw.timeout⟩
    ∧ nextSequenceTokenInput lw = ⟨lw.logGroupName, lw.logStreamName, true, some 1⟩
    ∧ (WriteString lw waitResult describeResp putResult msg nowMillis).describeCalls.length ≤ 1
    ∧ (WriteString lw waitResult describeResp putResult msg nowMillis).putCalls.length ≤ 1
    ∧ (∀ e, waitResult = some e →
        WriteString lw waitResult describeResp putResult msg nowMillis = ⟨[], [], some e⟩)
    ∧ (waitResult = none → describeResp = Except.ok [] →
        WriteString lw waitResult describeResp putResult msg nowMillis
          = ⟨[nextSequenceTokenInput lw], [],
              some (GoError.plain (noStreamFoundMessage lw))⟩)
    ∧ (∀ e, waitResult = none → describeResp = Except.error e →
        WriteString lw waitResult describeResp putResult msg nowMillis
          = ⟨[nextSequenceTokenInput lw], [], some e⟩)
    ∧ (∀ s rest, waitResult = none → describeResp = Except.ok (s :: rest) →
        WriteString lw waitResult describeResp putResult msg nowMillis
          = ⟨[nextSequenceTokenInput lw],
              [writeStringPutInput lw s.uploadSequenceToken msg nowMillis], putResult⟩
        ∧ (writeStringPutInput lw s.uploadSequenceToken msg nowMillis).logEvents
            = [⟨msg, nowMillis⟩]) := by
  refine ⟨rfl, rfl, ?_, ?_, ?_, ?_, ?_, ?_⟩
  · cases waitResult with
    | some e => exact Nat.zero_le 1
    | none =>
      cases describeResp with
      | error e => simp [WriteString, nextSequenceToken]
      | ok streams =>
        cases streams with
        | nil => simp [WriteString, nextSequenceToken]
        | cons s rest => simp [WriteString, nextSequenceToken]
  · cases waitResult with
    | some e => exact Nat.zero_le 1
    | none =>
      cases describeResp with
      | error e => simp [WriteString, nextSequenceToken]
      | ok streams =>
        cases streams with
        | nil => simp [WriteString, nextSequenceToken]
        | cons s rest => simp [WriteString, nextSequenceToken]
  · intro e he
    subst he
    rfl
  · intro hw hd
    subst hw; subst hd
    rfl
  · intro e hw hd
    subst hw; subst hd
    rfl
  · intro s rest hw hd
    subst hw; subst hd
    exact ⟨rfl, rfl⟩

/-- The container scan of `Runner.Run` returns the first non-zero exit
code in iteration order. -/
theorem runExitScanContainers_eq_find (cs : List ContainerResult) :
    runExitScanContainers cs
      = (cs.find? (fun c => c.exitCode != 0)).map
          (fun c => ⟨exitErrorMessage c, c.exitCode⟩) := by
  induction cs with
  | nil => rfl
  | cons c rest ih =>
    by_cases hz : c.exitCode != 0
    · rw [runExitScanContainers, if_pos hz,
        @List.find?_cons_of_pos ContainerResult (fun c => c.exitCode != 0) c rest hz]
      rfl
    · rw [runExitScanContainers, if_neg hz,
        @List.find?_cons_of_neg ContainerResult (fun c => c.exitCode != 0) c rest hz, ih]

/-- The task scan of `Runner.Run` returns the first non-zero exit code
across the flattened container iteration order. -/
theorem runExitScan_eq_find (tasks : List TaskResult) :
    runExitScan tasks
      = ((tasks.map TaskResult.containers).flatten.find? (fun c => c.exitCode != 0)).map
          (fun c => ⟨exitErrorMessage c, c.exitCode⟩) := by
  induction tasks with
  | nil => rfl
  | cons t rest ih =>
    rw [runExitScan, runExitScanContainers_eq_find, List.map_cons, List.flatten_cons,
      List.find?_append, ih]
    cases h : t.containers.find? (fun c => c.exitCode != 0) with
    | none => simp [h]
    | some c => simp [h]

/-- C9: `Runner.Run`'s final aggregation returns success when every
container of every task exited zero, and otherwise returns an
`exitError` whose carried exit code (what `ExitCode()` reports) is the
exit code of the first container with a non-zero code in task/container
iteration order, wrapping that container's own message. -/
theorem C9_run_exit_code (tasks : List TaskResult) :
    ((∀ c ∈ (tasks.map TaskResult.containers).flatten, c.exitCode = 0) →
      runExitScan tasks = none)
    ∧ (∀ c, (tasks.map TaskResult.containers).flatten.find? (fun c => c.exitCode != 0)
          = some c →
        runExitScan tasks = some ⟨exitErrorMessage c, c.exitCode⟩
        ∧ (runExitScan tasks).map ExitCode = some c.exitCode) := by
  constructor
  · intro hall
    rw [runExitScan_eq_find]
    have : (tasks.map TaskResult.containers).flatten.find? (fun c => c.exitCode != 0)
        = none := by
      rw [List.find?_eq_none]
      intro x hx
      rw [hall x hx]
      simp
    rw [this]
    rfl
  · intro c hfind
    rw [runExitScan_eq_find, hfind]
    exact ⟨rfl, rfl⟩

end EcsRunTask
